import Mathlib

/-!
# Shallow embedding of the portfolio-tracker dashboard (`app.py`)

The program keeps an ordered list of holdings (ticker, shares, purchase
date), fetches per-ticker closing-price histories from an external
provider, and derives three views: a forward-filled aggregated value
series (`portfolio_value_over_time`), a per-holding snapshot table
(`get_portfolio_table`) and summary totals (`get_portfolio_stats`); a
single callback (`update_portfolio`) appends a validated holding.

Modelling conventions:
* Prices and monetary amounts are exact rationals (`ℚ`); Python's
  builtin `round(x, 2)` is round-half-to-even, embedded as `round2`.
* Calendar dates of a price series are naturals (ordinal days); the
  form's date string stays a `String` since the code only passes it
  through to the provider.
* The external price client is a `PriceProvider`; a fetch that raises is
  `Except.error ()`, a fetch that returns rows is `Except.ok series`.
* A pandas `Series` of closes is a date-indexed list `List (Nat × ℚ)`;
  scalar multiplication preserves the pandas series name `"Close"`,
  which the code never changes before `DataFrame.join`, so every joined
  column after the first is literally named `"Close"` and a join whose
  target already has a `"Close"` column raises (columns overlap) — the
  raise is caught by the loop's `except` and the holding is skipped.
  The embedding keeps this behaviour (`pvotStep`).
* A joined frame stores each column as its defined (date, value) pairs
  together with the frame's full date index; cells are materialised by
  `reindexCol` when `ffill`/`fillna(0)`/row-sum run (`fillFrame`,
  `finalize`).  Realignment composes, so materialising once at the end
  equals pandas' eager realignment at each join: the frame's index
  always contains every date of each stored column.
-/

namespace PortfolioTracker

/-- One purchased position, as stored in the `dcc.Store` list by
`update_portfolio`: `{"Ticker": ..., "Shares": ..., "PurchaseDate": ...}`. -/
structure Holding where
  Ticker : String
  Shares : ℚ
  PurchaseDate : String
deriving DecidableEq

/-- A date-indexed list of closing prices, one pandas `Series` of closes. -/
abbrev Series := List (Nat × ℚ)

/-- The external market-data client (`yfinance`): `hist t start` models
`yf.Ticker(t).history(start=start)['Close']` and `last t` models
`yf.Ticker(t).history(period='1d')['Close'].iloc[-1]`; `Except.error ()`
is a fetch that raises (or, for `last`, has no row to index). -/
structure PriceProvider where
  hist : String → String → Except Unit Series
  last : String → Except Unit ℚ

/-- Python's builtin `round` to an integer: round half to even, on the
exact rational value (so `q - ⌊q⌋` is the fractional part in `[0, 1)`). -/
def roundHalfEven (q : ℚ) : ℤ :=
  if q - ⌊q⌋ < 1/2 then ⌊q⌋
  else if 1/2 < q - ⌊q⌋ then ⌊q⌋ + 1
  else if ⌊q⌋ % 2 = 0 then ⌊q⌋ else ⌊q⌋ + 1

/-- `round(x, 2)` from the snapshot construction. -/
def round2 (q : ℚ) : ℚ := (roundHalfEven (q * 100) : ℚ) / 100

/-- `update_portfolio`'s state transition on the stored holdings list.
Each form value is `Option`-typed (Dash passes `None` for untouched
inputs) and the code guards with Python truthiness:
`if n_clicks and ticker and shares and date:` — so `None`, `0` and `""`
all skip the append.  The appended record uppercases the ticker.  The
callback's other outputs (figure, table, stats) are recomputed from the
returned list by the functions below and carry no further state. -/
def update_portfolio (n_clicks : Option Nat) (ticker : Option String)
    (shares : Option ℚ) (date : Option String)
    (portfolio_data : Option (List Holding)) : List Holding :=
  let pd := portfolio_data.getD []
  match n_clicks, ticker, shares, date with
  | some n, some t, some sh, some dt =>
    if n ≠ 0 ∧ t ≠ "" ∧ sh ≠ 0 ∧ dt ≠ "" then
      pd ++ [{ Ticker := t.toUpper, Shares := sh, PurchaseDate := dt }]
    else pd
  | _, _, _, _ => pd

/-- One row of the dashboard table, as built by `get_portfolio_table`. -/
structure Snapshot where
  Ticker : String
  Shares : ℚ
  PurchaseDate : String
  PurchasePrice : ℚ
  CurrentPrice : ℚ
  CurrentValue : ℚ
  GainLoss : ℚ
deriving DecidableEq

/-- Loop body of `get_portfolio_table`: fetch the history since the
purchase date (`continue` on no rows, skip on raise), take the first
close as the purchase price, fetch the latest close as the current
price, then append the row with every monetary figure rounded to two
decimals — the products are computed at full precision and rounded
afterwards. -/
def tableStep (pp : PriceProvider) (acc : List Snapshot) (stock : Holding) :
    List Snapshot :=
  match pp.hist stock.Ticker stock.PurchaseDate with
  | .error _ => acc
  | .ok [] => acc
  | .ok ((_, purchase_price) :: _) =>
    match pp.last stock.Ticker with
    | .error _ => acc
    | .ok current_price =>
      acc ++ [{ Ticker := stock.Ticker
                Shares := stock.Shares
                PurchaseDate := stock.PurchaseDate
                PurchasePrice := round2 purchase_price
                CurrentPrice := round2 current_price
                CurrentValue := round2 (stock.Shares * current_price)
                GainLoss := round2 ((current_price - purchase_price) * stock.Shares) }]

/-- `get_portfolio_table`: build the table rows, silently dropping any
holding whose fetch raises or returns no rows. -/
def get_portfolio_table (pp : PriceProvider) (portfolio_list : List Holding) :
    List Snapshot :=
  portfolio_list.foldl (tableStep pp) []

/-- Result of `get_portfolio_stats`: either the literal no-data string
or the numeric triple the code interpolates into
`"Total Portfolio Value: $... | Total Gain/Loss: $... (...%)"`.
Only the number formatting of that f-string is abstracted away. -/
inductive StatsOutput where
  | message (s : String)
  | line (totalValue totalGain gainPercent : ℚ)
deriving DecidableEq

/-- `get_portfolio_stats`: totals over the (already rounded) table rows. -/
def get_portfolio_stats : List Snapshot → StatsOutput
  | [] => StatsOutput.message "No portfolio data yet."
  | row :: rows =>
    let table_data := row :: rows
    let total_value := (table_data.map (fun r => r.CurrentValue)).sum
    let total_invested := (table_data.map (fun r => r.PurchasePrice * r.Shares)).sum
    let total_gain := total_value - total_invested
    let gain_percent := if total_invested > 0 then total_gain / total_invested * 100 else 0
    StatsOutput.line total_value total_gain gain_percent

/-- Exact-match cell of a date-indexed series at date `d` (one cell of a
pandas column after aligning to a row index; absent dates are NaN,
i.e. `none`). -/
def seriesLookup (s : Series) (d : Nat) : Option ℚ :=
  (s.find? (fun p => p.1 == d)).map Prod.snd

/-- The most recent value of a series at a date `≤ d` (last such entry
in list order, which for a date-sorted series is the latest one). -/
def lastAt (s : Series) (d : Nat) : Option ℚ :=
  s.foldl (fun acc p => if p.1 ≤ d then some p.2 else acc) none

/-- Insert a date into a sorted date index, keeping it sorted and
duplicate-free (one step of building a pandas outer-join index). -/
def insertDate (d : Nat) : List Nat → List Nat
  | [] => [d]
  | x :: xs =>
    if d < x then d :: x :: xs
    else if d = x then x :: xs
    else x :: insertDate d xs

/-- Sorted union of two date indexes: the row index produced by
`DataFrame.join(..., how='outer')`. -/
def dateUnion (xs ys : List Nat) : List Nat :=
  ys.foldl (fun acc d => insertDate d acc) xs

/-- `ffill` down one column: each NaN cell takes the last value seen
above it (`carry`), a present cell replaces the carry. -/
def ffillCol (carry : Option ℚ) : List (Option ℚ) → List (Option ℚ)
  | [] => []
  | none :: rest => carry :: ffillCol carry rest
  | some v :: rest => some v :: ffillCol (some v) rest

/-- Align a sparse column to a row index: the cells of the column at
each index date (`none` = NaN where the column has no entry). -/
def reindexCol (s : Series) (dates : List Nat) : List (Option ℚ) :=
  dates.map (seriesLookup s)

/-- First-of-two option: `o` if present, else the carry `c` (used to
state how a forward-fill carry propagates). -/
def orElseO (o c : Option ℚ) : Option ℚ :=
  match o with
  | some v => some v
  | none => c

/-- The joined frame built by the loop in `portfolio_value_over_time`:
the outer-joined row index plus each column's defined entries.  (Cells
are materialised against the full index by `fillFrame`; the index always
contains every date of each stored column, so this equals pandas'
realignment at each join.) -/
structure Frame where
  dates : List Nat
  cols : List (String × Series)
deriving DecidableEq

/-- `combined.ffill().fillna(0)`: materialise, forward-fill and
zero-fill every column of the frame. -/
def fillFrame (fr : Frame) : List (String × List ℚ) :=
  fr.cols.map (fun c =>
    (c.1, (ffillCol none (reindexCol c.2 fr.dates)).map (fun o => o.getD 0)))

/-- The returned frame: date index, filled per-holding columns, and the
`Total` column (`combined.sum(axis=1)`, the row-wise sum over the filled
columns, taken before `Total` is added). -/
structure TSResult where
  dates : List Nat
  cols : List (String × List ℚ)
  total : List ℚ
deriving DecidableEq

/-- Finish `portfolio_value_over_time` from the joined frame. -/
def finalize (fr : Frame) : TSResult :=
  { dates := fr.dates
    cols := fillFrame fr
    total := (List.range fr.dates.length).map (fun i =>
      ((fillFrame fr).map (fun c => c.2.getD i 0)).sum) }

/-- Loop body of `portfolio_value_over_time`.  A fetch that raises is
skipped.  The fetched close series (pandas name `'Close'`) is scaled by
the share count (name preserved); the first successful holding seeds the
frame with its column renamed to its ticker (`to_frame(ticker)`), every
later one is outer-joined as a column named `'Close'` — so as soon as a
`'Close'` column exists (the first holding's ticker being `"Close"`, or
any third successful holding) the join raises `columns overlap`, the
`except` swallows it, and the holding is silently dropped. -/
def pvotStep (pp : PriceProvider) (acc : Option Frame) (h : Holding) :
    Option Frame :=
  match pp.hist h.Ticker h.PurchaseDate with
  | .error _ => acc
  | .ok prices =>
    let value : Series := prices.map (fun p => (p.1, p.2 * h.Shares))
    match acc with
    | none => some { dates := value.map Prod.fst, cols := [(h.Ticker, value)] }
    | some fr =>
      if fr.cols.any (fun c => c.1 == "Close") then some fr
      else some { dates := dateUnion fr.dates (value.map Prod.fst)
                  cols := fr.cols ++ [("Close", value)] }

/-- `portfolio_value_over_time`: `none` models the empty `DataFrame`
returned for an empty portfolio or when every fetch failed (rendered as
the "No stocks in portfolio yet." chart). -/
def portfolio_value_over_time (pp : PriceProvider) (portfolio_list : List Holding) :
    Option TSResult :=
  match portfolio_list with
  | [] => none
  | _ :: _ =>
    match portfolio_list.foldl (pvotStep pp) none with
    | none => none
    | some combined => some (finalize combined)

/-! ### Concrete fixtures used by counterexamples, bug demonstrations
and witnesses.  Prices are exact decimals: `20001/200 = 100.005`,
`27501/250 = 110.004`, `10001/1000 = 10.001`, `10001/500 = 20.002`. -/

/-- Provider for the rounding scenario of the spec: purchase price
100.005 and current price 110.004 for ticker `"AAA"`. -/
def ppRound : PriceProvider :=
  { hist := fun t _ => if t = "AAA" then .ok [(0, 20001/200)] else .error ()
    last := fun t => if t = "AAA" then .ok (27501/250) else .error () }

/-- Ten shares of `"AAA"`: the rounding scenario's holding. -/
def hRound : Holding := { Ticker := "AAA", Shares := 10, PurchaseDate := "2023-01-03" }

/-- Provider where `"BAD"` raises on fetch and `"GOOD"` succeeds. -/
def ppMixed : PriceProvider :=
  { hist := fun t _ => if t = "GOOD" then .ok [(1, 100)] else .error ()
    last := fun t => if t = "GOOD" then .ok 150 else .error () }

/-- The holding whose fetch fails. -/
def hBad : Holding := { Ticker := "BAD", Shares := 2, PurchaseDate := "2023-01-03" }

/-- The holding whose fetch succeeds. -/
def hGood : Holding := { Ticker := "GOOD", Shares := 10, PurchaseDate := "2023-01-03" }

/-- Provider for the gain-aggregation scenario: ticker `"YYY"` bought at
10.001 and now at 20.002. -/
def ppGain : PriceProvider :=
  { hist := fun t _ => if t = "YYY" then .ok [(1, 10001/1000)] else .error ()
    last := fun t => if t = "YYY" then .ok (10001/500) else .error () }

/-- Three shares of `"YYY"`. -/
def hGain : Holding := { Ticker := "YYY", Shares := 3, PurchaseDate := "2023-01-03" }

/-- An already-built table row used to witness the summary formulas. -/
def snapW : Snapshot :=
  { Ticker := "X", Shares := 1, PurchaseDate := "2023-01-03"
    PurchasePrice := 10, CurrentPrice := 12, CurrentValue := 12, GainLoss := 2 }

/-- Provider with three tickers whose fetches all succeed, each history
holding one distinct date. -/
def ppThree : PriceProvider :=
  { hist := fun t _ =>
      if t = "AAA" then .ok [(1, 10)]
      else if t = "BBB" then .ok [(2, 20)]
      else if t = "CCC" then .ok [(3, 30)]
      else .error ()
    last := fun _ => .error () }

/-- One share of `"AAA"`. -/
def hAAA : Holding := { Ticker := "AAA", Shares := 1, PurchaseDate := "2023-01-03" }

/-- One share of `"BBB"`. -/
def hBBB : Holding := { Ticker := "BBB", Shares := 1, PurchaseDate := "2023-01-03" }

/-- One share of `"CCC"`. -/
def hCCC : Holding := { Ticker := "CCC", Shares := 1, PurchaseDate := "2023-01-03" }

/-- Provider where a ticker literally named `"Close"` succeeds, as does
`"AAPL"` whose history has the extra date `2`. -/
def ppClose : PriceProvider :=
  { hist := fun t _ =>
      if t = "Close" then .ok [(1, 10)]
      else if t = "AAPL" then .ok [(1, 5), (2, 7)]
      else .error ()
    last := fun _ => .error () }

/-- One share of the pathological ticker `"Close"`. -/
def hCloseTicker : Holding := { Ticker := "Close", Shares := 1, PurchaseDate := "2023-01-03" }

/-- One share of `"AAPL"`. -/
def hAAPL : Holding := { Ticker := "AAPL", Shares := 1, PurchaseDate := "2023-01-03" }

/-- Two-holding provider with overlapping but different date sets, for
the outer-join witness. -/
def ppJoin : PriceProvider :=
  { hist := fun t _ =>
      if t = "AAA" then .ok [(1, 10), (3, 30)]
      else if t = "BBB" then .ok [(2, 5)]
      else .error ()
    last := fun _ => .error () }

/-- Two shares of `"AAA"` for the outer-join witness. -/
def hJoin1 : Holding := { Ticker := "AAA", Shares := 2, PurchaseDate := "2023-01-03" }

/-- Four shares of `"BBB"` for the outer-join witness. -/
def hJoin2 : Holding := { Ticker := "BBB", Shares := 4, PurchaseDate := "2023-01-03" }

/-! ### Helper lemmas -/

/-- Characterisation of `roundHalfEven` away from ties. -/
lemma roundHalfEven_eq_of_ne_half (q : ℚ) (z : ℤ)
    (h1 : (z : ℚ) - 1/2 < q) (h2 : q < (z : ℚ) + 1/2) :
    roundHalfEven q = z := by
  rcases le_or_lt (z : ℚ) q with hle | hlt
  · have hf : ⌊q⌋ = z := by
      rw [Int.floor_eq_iff]
      exact ⟨hle, by linarith⟩
    simp only [roundHalfEven, hf]
    rw [if_pos (by linarith)]
  · have hf : ⌊q⌋ = z - 1 := by
      rw [Int.floor_eq_iff]
      constructor <;> push_cast <;> linarith
    simp only [roundHalfEven, hf]
    rw [if_neg (by push_cast; linarith), if_pos (by push_cast; linarith)]
    omega

/-- Characterisation of `round2` away from ties: if `q * 100` is
strictly within half a unit of the integer `z`, then `q` rounds to
`z / 100`. -/
lemma round2_eq (q : ℚ) (z : ℤ) (h1 : (z : ℚ) - 1/2 < q * 100)
    (h2 : q * 100 < (z : ℚ) + 1/2) : round2 q = (z : ℚ) / 100 := by
  simp only [round2, roundHalfEven_eq_of_ne_half (q * 100) z h1 h2]

lemma orElseO_none (o : Option ℚ) : orElseO o none = o := by cases o <;> rfl

lemma orElseO_orElseO_some (a : Option ℚ) (x : ℚ) (c : Option ℚ) :
    orElseO (orElseO a (some x)) c = orElseO a (some x) := by
  cases a <;> rfl

lemma lastAt_foldl (s : Series) (d : Nat) (c : Option ℚ) :
    s.foldl (fun acc p => if p.1 ≤ d then some p.2 else acc) c =
      orElseO (lastAt s d) c := by
  induction s generalizing c with
  | nil => cases c <;> rfl
  | cons p s ih =>
    show List.foldl _ (if p.1 ≤ d then some p.2 else c) s = _
    rw [ih]
    have hR : lastAt (p :: s) d =
        orElseO (lastAt s d) (if p.1 ≤ d then some p.2 else none) := by
      show List.foldl _ (if p.1 ≤ d then some p.2 else none) s = _
      rw [ih]
    rw [hR]
    by_cases hp : p.1 ≤ d
    · simp only [if_pos hp, orElseO_orElseO_some]
    · simp only [if_neg hp]
      cases lastAt s d <;> rfl

lemma lastAt_cons (p : Nat × ℚ) (s : Series) (d : Nat) :
    lastAt (p :: s) d =
      orElseO (lastAt s d) (if p.1 ≤ d then some p.2 else none) := by
  show List.foldl _ (if p.1 ≤ d then some p.2 else none) s = _
  rw [lastAt_foldl]

lemma lastAt_none_of_gt (s : Series) (d : Nat) (h : ∀ p ∈ s, ¬ p.1 ≤ d) :
    lastAt s d = none := by
  induction s with
  | nil => rfl
  | cons p s ih =>
    rw [lastAt_cons, if_neg (h p (List.mem_cons_self p s)),
        ih (fun q hq => h q (List.mem_cons_of_mem p hq))]
    rfl

lemma lastAt_map_scale (s : Series) (k : ℚ) (d : Nat) :
    lastAt (s.map (fun p => (p.1, p.2 * k))) d = (lastAt s d).map (fun v => v * k) := by
  induction s with
  | nil => rfl
  | cons p s ih =>
    rw [List.map_cons, lastAt_cons, lastAt_cons, ih]
    by_cases hp : p.1 ≤ d
    · simp only [if_pos hp]
      cases lastAt s d <;> rfl
    · simp only [if_neg hp]
      cases lastAt s d <;> rfl
lemma seriesLookup_cons_ne (p : Nat × ℚ) (s : Series) (d : Nat) (h : p.1 ≠ d) :
    seriesLookup (p :: s) d = seriesLookup s d := by
  unfold seriesLookup
  rw [List.find?_cons_of_neg]
  simpa using h

lemma seriesLookup_cons_self (p : Nat × ℚ) (s : Series) :
    seriesLookup (p :: s) p.1 = some p.2 := by
  unfold seriesLookup
  rw [List.find?_cons_of_pos]
  · rfl
  · simp

lemma seriesLookup_eq_none_iff (s : Series) (d : Nat) :
    seriesLookup s d = none ↔ ∀ p ∈ s, p.1 ≠ d := by
  simp [seriesLookup, List.find?_eq_none]

lemma seriesLookup_mem (s : Series) (d : Nat) (v : ℚ)
    (h : seriesLookup s d = some v) : ∃ p ∈ s, p.1 = d ∧ p.2 = v := by
  unfold seriesLookup at h
  cases hf : List.find? (fun p => p.1 == d) s with
  | none => rw [hf] at h; cases h
  | some q =>
    rw [hf] at h
    have hm := List.mem_of_find?_eq_some hf
    have hq := List.find?_some hf
    simp only [Option.map_some', Option.some.injEq] at h
    simp only [beq_iff_eq] at hq
    exact ⟨q, hm, hq, h⟩

lemma mem_insertDate (d x : Nat) (l : List Nat) :
    x ∈ insertDate d l ↔ x = d ∨ x ∈ l := by
  induction l with
  | nil => simp [insertDate]
  | cons a l ih =>
    by_cases h1 : d < a
    · simp only [insertDate, if_pos h1, List.mem_cons]
    · by_cases h2 : d = a
      · subst h2
        have he : insertDate d (d :: l) = d :: l := by
          rw [insertDate, if_neg h1, if_pos rfl]
        rw [he, List.mem_cons]
        tauto
      · simp only [insertDate, if_neg h1, if_neg h2, List.mem_cons, ih]
        tauto

lemma pairwise_insertDate (d : Nat) (l : List Nat) (h : l.Pairwise (· < ·)) :
    (insertDate d l).Pairwise (· < ·) := by
  induction l with
  | nil => simp [insertDate]
  | cons a l ih =>
    rcases List.pairwise_cons.mp h with ⟨ha, hl⟩
    by_cases h1 : d < a
    · rw [insertDate, if_pos h1]
      refine List.pairwise_cons.mpr ⟨?_, h⟩
      intro y hy
      rcases List.mem_cons.mp hy with rfl | hy'
      · exact h1
      · exact lt_trans h1 (ha y hy')
    · by_cases h2 : d = a
      · rw [insertDate, if_neg h1, if_pos h2]
        exact h
      · rw [insertDate, if_neg h1, if_neg h2]
        have had : a < d := by omega
        refine List.pairwise_cons.mpr ⟨?_, ih hl⟩
        intro y hy
        rcases (mem_insertDate d y l).mp hy with rfl | hy'
        · exact had
        · exact ha y hy'

lemma mem_dateUnion (x : Nat) (xs ys : List Nat) :
    x ∈ dateUnion xs ys ↔ x ∈ xs ∨ x ∈ ys := by
  induction ys generalizing xs with
  | nil => simp [dateUnion]
  | cons y ys ih =>
    show x ∈ dateUnion (insertDate y xs) ys ↔ _
    rw [ih, mem_insertDate, List.mem_cons]
    tauto

lemma pairwise_dateUnion (xs ys : List Nat) (h : xs.Pairwise (· < ·)) :
    (dateUnion xs ys).Pairwise (· < ·) := by
  induction ys generalizing xs with
  | nil => exact h
  | cons y ys ih => exact ih (insertDate y xs) (pairwise_insertDate y xs h)

lemma map_fst_scale (s : Series) (k : ℚ) :
    (s.map (fun p => (p.1, p.2 * k))).map Prod.fst = s.map Prod.fst := by
  rw [List.map_map]
  rfl

lemma map_fst_scale_comp (s : Series) (k : ℚ) :
    List.map (Prod.fst ∘ fun p => (p.1, p.2 * k)) s = s.map Prod.fst := rfl

lemma pairwise_scale (s : Series) (k : ℚ) (h : s.Pairwise (fun p q => p.1 < q.1)) :
    (s.map (fun p => (p.1, p.2 * k))).Pairwise (fun p q => p.1 < q.1) := by
  rw [List.pairwise_map]
  exact h
lemma ffill_reindex (dates : List Nat) (s : Series) (c : Option ℚ)
    (hd : dates.Pairwise (· < ·))
    (hs : s.Pairwise (fun p q => p.1 < q.1))
    (hsub : ∀ p ∈ s, p.1 ∈ dates) :
    ffillCol c (dates.map (seriesLookup s)) =
      dates.map (fun d => orElseO (lastAt s d) c) := by
  induction dates generalizing s c with
  | nil => rfl
  | cons d ds ih =>
    rcases List.pairwise_cons.mp hd with ⟨hlt, hd'⟩
    rw [List.map_cons, List.map_cons]
    cases hval : seriesLookup s d with
    | none =>
      have hne : ∀ p ∈ s, p.1 ≠ d := (seriesLookup_eq_none_iff s d).mp hval
      have hsub' : ∀ p ∈ s, p.1 ∈ ds := by
        intro p hp
        rcases List.mem_cons.mp (hsub p hp) with h | h
        · exact absurd h (hne p hp)
        · exact h
      have hgt : ∀ p ∈ s, ¬ p.1 ≤ d := by
        intro p hp
        have := hlt p.1 (hsub' p hp)
        omega
      rw [show ffillCol c (none :: ds.map (seriesLookup s)) =
            c :: ffillCol c (ds.map (seriesLookup s)) from rfl]
      rw [ih s c hd' hs hsub']
      rw [lastAt_none_of_gt s d hgt]
      rfl
    | some v =>
      cases s with
      | nil => simp [seriesLookup] at hval
      | cons p s' =>
        rcases List.pairwise_cons.mp hs with ⟨hps, hs'⟩
        have hpd : p.1 = d := by
          by_contra hne
          have hval' : seriesLookup s' d = some v := by
            rw [← seriesLookup_cons_ne p s' d hne]
            exact hval
          rcases seriesLookup_mem s' d v hval' with ⟨q, hq, hqd, _⟩
          have hp1 : p.1 ∈ ds := by
            rcases List.mem_cons.mp (hsub p (List.mem_cons_self p s')) with h | h
            · exact absurd h hne
            · exact h
          have h1 : d < p.1 := hlt p.1 hp1
          have h2 : p.1 < q.1 := hps q hq
          omega
        have hv : v = p.2 := by
          rw [← hpd, seriesLookup_cons_self p s'] at hval
          exact (Option.some.injEq _ _).mp hval.symm
        subst hv
        have hsub' : ∀ q ∈ s', q.1 ∈ ds := by
          intro q hq
          have hdq : d < q.1 := hpd ▸ hps q hq
          rcases List.mem_cons.mp (hsub q (List.mem_cons_of_mem p hq)) with h | h
          · omega
          · exact h
        have hgt' : ∀ q ∈ s', ¬ q.1 ≤ d := by
          intro q hq
          have hdq : d < q.1 := hpd ▸ hps q hq
          omega
        have htail : ds.map (seriesLookup (p :: s')) = ds.map (seriesLookup s') := by
          apply List.map_congr_left
          intro d' hd'mem
          apply seriesLookup_cons_ne
          have := hlt d' hd'mem
          omega
        rw [htail]
        rw [show ffillCol c (some p.2 :: ds.map (seriesLookup s')) =
              some p.2 :: ffillCol (some p.2) (ds.map (seriesLookup s')) from rfl]
        rw [ih s' (some p.2) hd' hs' hsub']
        have hhead : orElseO (lastAt (p :: s') d) c = some p.2 := by
          rw [lastAt_cons, lastAt_none_of_gt s' d hgt',
              if_pos (show p.1 ≤ d by omega)]
          rfl
        rw [hhead]
        congr 1
        apply List.map_congr_left
        intro d' hmem
        rw [lastAt_cons, if_pos (show p.1 ≤ d' by have := hlt d' hmem; omega),
            orElseO_orElseO_some]
lemma fillFrame_column (U : List Nat) (v : Series)
    (hU : U.Pairwise (· < ·))
    (hv : v.Pairwise (fun p q => p.1 < q.1))
    (hsub : ∀ p ∈ v, p.1 ∈ U) :
    (ffillCol none (reindexCol v U)).map (fun o => o.getD 0) =
      U.map (fun d => (lastAt v d).getD 0) := by
  rw [show reindexCol v U = U.map (seriesLookup v) from rfl]
  rw [ffill_reindex U v none hU hv hsub, List.map_map]
  apply List.map_congr_left
  intro d _
  show (orElseO (lastAt v d) none).getD 0 = (lastAt v d).getD 0
  cases lastAt v d <;> rfl

lemma range_map_getD_two (u : List Nat) (f g : Nat → ℚ) :
    (List.range u.length).map
        (fun i => (u.map f).getD i 0 + (u.map g).getD i 0) =
      u.map (fun d => f d + g d) := by
  induction u with
  | nil => rfl
  | cons a u ih =>
    simp only [List.length_cons, List.range_succ_eq_map, List.map_cons, List.map_map,
      List.getD_cons_zero, Function.comp_def, Nat.succ_eq_add_one, List.getD_cons_succ]
    rw [ih]

lemma finalize_two (U : List Nat) (n1 n2 : String) (v1 v2 : Series)
    (hU : U.Pairwise (· < ·))
    (h1 : v1.Pairwise (fun p q => p.1 < q.1))
    (h2 : v2.Pairwise (fun p q => p.1 < q.1))
    (hs1 : ∀ p ∈ v1, p.1 ∈ U) (hs2 : ∀ p ∈ v2, p.1 ∈ U) :
    finalize { dates := U, cols := [(n1, v1), (n2, v2)] } =
      { dates := U
        cols := [(n1, U.map (fun d => (lastAt v1 d).getD 0)),
                 (n2, U.map (fun d => (lastAt v2 d).getD 0))]
        total := U.map (fun d => (lastAt v1 d).getD 0 + (lastAt v2 d).getD 0) } := by
  have hff : fillFrame { dates := U, cols := [(n1, v1), (n2, v2)] } =
      [(n1, U.map (fun d => (lastAt v1 d).getD 0)),
       (n2, U.map (fun d => (lastAt v2 d).getD 0))] := by
    simp only [fillFrame, List.map_cons, List.map_nil]
    rw [fillFrame_column U v1 hU h1 hs1, fillFrame_column U v2 hU h2 hs2]
  simp only [finalize, hff, List.map_cons, List.map_nil, List.sum_cons,
    List.sum_nil, add_zero]
  rw [range_map_getD_two]

/-! ### Claims about the state transition (`update_portfolio`) -/

/-- C4: a fully populated, truthy add-holding call appends exactly one
record: the result is the input list plus one entry, the input list is
an unchanged prefix, and the appended record's ticker is the uppercased
input ticker. -/
theorem C4_valid_add_appends (n : Nat) (t : String) (sh : ℚ) (dt : String)
    (pd : List Holding) (hn : n ≠ 0) (ht : t ≠ "") (hs : sh ≠ 0) (hd : dt ≠ "") :
    update_portfolio (some n) (some t) (some sh) (some dt) (some pd) =
      pd ++ [{ Ticker := t.toUpper, Shares := sh, PurchaseDate := dt }]
    ∧ (update_portfolio (some n) (some t) (some sh) (some dt) (some pd)).length = pd.length + 1
    ∧ (update_portfolio (some n) (some t) (some sh) (some dt) (some pd)).take pd.length = pd
    ∧ ((update_portfolio (some n) (some t) (some sh) (some dt) (some pd)).getLast?).map Holding.Ticker
        = some t.toUpper := by
  have heq : update_portfolio (some n) (some t) (some sh) (some dt) (some pd) =
      pd ++ [{ Ticker := t.toUpper, Shares := sh, PurchaseDate := dt }] := by
    simp [update_portfolio, hn, ht, hs, hd]
  refine ⟨heq, ?_, ?_, ?_⟩ <;> rw [heq]
  · simp
  · simp
  · simp [List.getLast?_concat]

/-- C4 witness: adding ten shares of `"aapl"` to an empty list. -/
theorem C4_valid_add_appends_witness :
    update_portfolio (some 1) (some "aapl") (some 10) (some "2023-01-03") (some []) =
      [] ++ [{ Ticker := "aapl".toUpper, Shares := 10, PurchaseDate := "2023-01-03" }]
    ∧ (update_portfolio (some 1) (some "aapl") (some 10) (some "2023-01-03") (some [])).length =
        List.length ([] : List Holding) + 1
    ∧ (update_portfolio (some 1) (some "aapl") (some 10) (some "2023-01-03") (some [])).take
        (List.length ([] : List Holding)) = []
    ∧ ((update_portfolio (some 1) (some "aapl") (some 10) (some "2023-01-03") (some [])).getLast?).map
        Holding.Ticker = some "aapl".toUpper :=
  C4_valid_add_appends 1 "aapl" 10 "2023-01-03" []
    (by decide) (by decide) (by norm_num) (by decide)

/-- C5: an add-holding call with the ticker, shares or date missing
(null, or the empty string for the text fields) leaves the stored list
unchanged. -/
theorem C5_missing_input_noop (n : Option Nat) (t : Option String) (sh : Option ℚ)
    (dt : Option String) (pd : List Holding)
    (h : t = none ∨ t = some "" ∨ sh = none ∨ dt = none ∨ dt = some "") :
    update_portfolio n t sh dt (some pd) = pd := by
  cases n <;> cases t <;> cases sh <;> cases dt <;> simp_all [update_portfolio]
  tauto

/-- C5 witness: an empty ticker with every other field populated. -/
theorem C5_missing_input_noop_witness :
    update_portfolio (some 1) (some "") (some 10) (some "2023-01-03") (some [hAAA]) = [hAAA] :=
  C5_missing_input_noop (some 1) (some "") (some 10) (some "2023-01-03") [hAAA]
    (Or.inr (Or.inl rfl))

/-- C9: Python truthiness makes a shares value of `0` behave as missing
input (no record appended), while a negative shares value is appended. -/
theorem C9_zero_shares_vs_negative :
    (∀ (n : Nat) (t dt : String) (pd : List Holding),
       update_portfolio (some n) (some t) (some 0) (some dt) (some pd) = pd)
    ∧ (∀ (n : Nat) (t : String) (q : ℚ) (dt : String) (pd : List Holding),
       n ≠ 0 → t ≠ "" → q < 0 → dt ≠ "" →
       update_portfolio (some n) (some t) (some q) (some dt) (some pd) =
         pd ++ [{ Ticker := t.toUpper, Shares := q, PurchaseDate := dt }]) := by
  constructor
  · intro n t dt pd
    simp [update_portfolio]
  · intro n t q dt pd hn ht hq hd
    simp [update_portfolio, hn, ht, ne_of_lt hq, hd]

/-- C9 witness: zero shares are dropped, minus five shares are added. -/
theorem C9_zero_shares_vs_negative_witness :
    update_portfolio (some 1) (some "aapl") (some 0) (some "2023-01-03") (some []) = []
    ∧ update_portfolio (some 1) (some "aapl") (some (-5)) (some "2023-01-03") (some []) =
        [] ++ [{ Ticker := "aapl".toUpper, Shares := -5, PurchaseDate := "2023-01-03" }] :=
  ⟨C9_zero_shares_vs_negative.1 1 "aapl" "2023-01-03" [],
   C9_zero_shares_vs_negative.2 1 "aapl" (-5) "2023-01-03" []
     (by decide) (by decide) (by norm_num) (by decide)⟩

/-! ### Claims about the summary (`get_portfolio_stats`) -/

/-- C7: the summary of an empty table is the literal no-data message and
is never the numeric triple. -/
theorem C7_empty_summary_message :
    get_portfolio_stats [] = StatsOutput.message "No portfolio data yet."
    ∧ ∀ v g p : ℚ, get_portfolio_stats [] ≠ StatsOutput.line v g p :=
  ⟨rfl, fun _ _ _ h => by simp [get_portfolio_stats] at h⟩

/-- C8: for a non-empty table the summary is the numeric triple with
`totalValue = Σ CurrentValue`, the invested basis
`Σ PurchasePrice * Shares` over the already-rounded rows,
`totalGain = totalValue - totalInvested`, and
`gainPercent = totalGain / totalInvested * 100` when the invested basis
is positive and `0` otherwise. -/
theorem C8_summary_formulas (t : List Snapshot) (h : t ≠ []) :
    get_portfolio_stats t =
      StatsOutput.line ((t.map (fun r => r.CurrentValue)).sum)
        ((t.map (fun r => r.CurrentValue)).sum -
          (t.map (fun r => r.PurchasePrice * r.Shares)).sum)
        (if (t.map (fun r => r.PurchasePrice * r.Shares)).sum > 0
         then ((t.map (fun r => r.CurrentValue)).sum -
                (t.map (fun r => r.PurchasePrice * r.Shares)).sum)
              / (t.map (fun r => r.PurchasePrice * r.Shares)).sum * 100
         else 0) := by
  cases t with
  | nil => exact absurd rfl h
  | cons row rows => rfl

/-- C8 witness: the summary formulas at a one-row table. -/
theorem C8_summary_formulas_witness :
    get_portfolio_stats [snapW] =
      StatsOutput.line (([snapW].map (fun r => r.CurrentValue)).sum)
        (([snapW].map (fun r => r.CurrentValue)).sum -
          ([snapW].map (fun r => r.PurchasePrice * r.Shares)).sum)
        (if ([snapW].map (fun r => r.PurchasePrice * r.Shares)).sum > 0
         then (([snapW].map (fun r => r.CurrentValue)).sum -
                ([snapW].map (fun r => r.PurchasePrice * r.Shares)).sum)
              / ([snapW].map (fun r => r.PurchasePrice * r.Shares)).sum * 100
         else 0) :=
  C8_summary_formulas [snapW] (by simp)

/-! ### Claims about the snapshot table (`get_portfolio_table`) -/

/-- C2 counterexample: in the spec's own scenario (current price
110.004, ten shares) the snapshot's `CurrentValue` is
`round2(10 * 110.004) = 1100.04`, whereas deriving from the rounded
input as the claim states would give `10 * round2(110.004) = 1100` —
the derived figures do not use the rounded inputs. -/
theorem C2_counterexample :
    (get_portfolio_table ppRound [hRound]).map (fun r => r.CurrentValue) = [27501/25]
    ∧ hRound.Shares * round2 (27501/250) = 1100
    ∧ ((27501 : ℚ)/25) ≠ 1100 := by
  refine ⟨?_, ?_, by norm_num⟩
  · have e : round2 ((10:ℚ) * (27501/250)) = 27501/25 := by
      rw [round2_eq ((10:ℚ) * (27501/250)) 110004 (by norm_num) (by norm_num)]
      norm_num
    simp [get_portfolio_table, tableStep, ppRound, hRound, e]
  · have e2 : round2 ((27501:ℚ)/250) = 110 := by
      rw [round2_eq ((27501:ℚ)/250) 11000 (by norm_num) (by norm_num)]
      norm_num
    rw [e2]
    simp [hRound]
    norm_num

/-- C2 (amended): `PurchasePrice` and `CurrentPrice` are rounded to two
decimals in the snapshot, but `CurrentValue` and `GainLoss` are computed
from the full-precision prices and only then rounded:
`CurrentValue = round2(shares * currentPrice)` and
`GainLoss = round2((currentPrice - purchasePrice) * shares)`. -/
theorem C2_rounds_after_derivation (pp : PriceProvider) (stock : Holding)
    (d : Nat) (p0 : ℚ) (rest : Series) (c : ℚ)
    (hh : pp.hist stock.Ticker stock.PurchaseDate = Except.ok ((d, p0) :: rest))
    (hc : pp.last stock.Ticker = Except.ok c) :
    get_portfolio_table pp [stock] =
      [{ Ticker := stock.Ticker, Shares := stock.Shares
         PurchaseDate := stock.PurchaseDate
         PurchasePrice := round2 p0, CurrentPrice := round2 c
         CurrentValue := round2 (stock.Shares * c)
         GainLoss := round2 ((c - p0) * stock.Shares) }] := by
  simp [get_portfolio_table, tableStep, hh, hc]

/-- C2 witness: the amended rounding behaviour at the spec's scenario
(purchase 100.005, current 110.004, ten shares). -/
theorem C2_rounds_after_derivation_witness :
    get_portfolio_table ppRound [hRound] =
      [{ Ticker := hRound.Ticker, Shares := hRound.Shares
         PurchaseDate := hRound.PurchaseDate
         PurchasePrice := round2 (20001/200), CurrentPrice := round2 (27501/250)
         CurrentValue := round2 (hRound.Shares * (27501/250))
         GainLoss := round2 ((27501/250 - 20001/200) * hRound.Shares) }] :=
  C2_rounds_after_derivation ppRound hRound 0 (20001/200) [] (27501/250) rfl rfl

/-- C6: with one holding whose historical fetch raises or returns no
rows and one whose fetches succeed, the table holds exactly the
succeeding holding's snapshot, and the summary over that table is the
summary of that single snapshot: its value, gain and percentage come
from that row alone. -/
theorem C6_failed_fetch_dropped (pp : PriceProvider) (h1 h2 : Holding)
    (d : Nat) (p0 : ℚ) (rest : Series) (c : ℚ)
    (hfail : pp.hist h1.Ticker h1.PurchaseDate = Except.error () ∨
             pp.hist h1.Ticker h1.PurchaseDate = Except.ok [])
    (hok : pp.hist h2.Ticker h2.PurchaseDate = Except.ok ((d, p0) :: rest))
    (hc : pp.last h2.Ticker = Except.ok c) :
    get_portfolio_table pp [h1, h2] =
      [{ Ticker := h2.Ticker, Shares := h2.Shares, PurchaseDate := h2.PurchaseDate
         PurchasePrice := round2 p0, CurrentPrice := round2 c
         CurrentValue := round2 (h2.Shares * c)
         GainLoss := round2 ((c - p0) * h2.Shares) }]
    ∧ get_portfolio_stats (get_portfolio_table pp [h1, h2]) =
        StatsOutput.line (round2 (h2.Shares * c))
          (round2 (h2.Shares * c) - round2 p0 * h2.Shares)
          (if round2 p0 * h2.Shares > 0
           then (round2 (h2.Shares * c) - round2 p0 * h2.Shares)
                / (round2 p0 * h2.Shares) * 100
           else 0) := by
  have htab : get_portfolio_table pp [h1, h2] =
      [{ Ticker := h2.Ticker, Shares := h2.Shares, PurchaseDate := h2.PurchaseDate
         PurchasePrice := round2 p0, CurrentPrice := round2 c
         CurrentValue := round2 (h2.Shares * c)
         GainLoss := round2 ((c - p0) * h2.Shares) }] := by
    rcases hfail with hf | hf <;> simp [get_portfolio_table, tableStep, hf, hok, hc]
  refine ⟨htab, ?_⟩
  rw [htab]
  simp [get_portfolio_stats]

/-- C6 witness: `"BAD"` raises, `"GOOD"` succeeds at 100 → 150. -/
theorem C6_failed_fetch_dropped_witness :
    get_portfolio_table ppMixed [hBad, hGood] =
      [{ Ticker := hGood.Ticker, Shares := hGood.Shares, PurchaseDate := hGood.PurchaseDate
         PurchasePrice := round2 100, CurrentPrice := round2 150
         CurrentValue := round2 (hGood.Shares * 150)
         GainLoss := round2 ((150 - 100) * hGood.Shares) }]
    ∧ get_portfolio_stats (get_portfolio_table ppMixed [hBad, hGood]) =
        StatsOutput.line (round2 (hGood.Shares * 150))
          (round2 (hGood.Shares * 150) - round2 100 * hGood.Shares)
          (if round2 100 * hGood.Shares > 0
           then (round2 (hGood.Shares * 150) - round2 100 * hGood.Shares)
                / (round2 100 * hGood.Shares) * 100
           else 0) :=
  C6_failed_fetch_dropped ppMixed hBad hGood 1 100 [] 150 (Or.inl rfl) rfl rfl

/-- C10: the summary's reported gain is always total value minus the
invested basis (`Σ CurrentValue - Σ PurchasePrice * Shares`), not the
sum of the rows' rounded `GainLoss` fields — and on the concrete holding
`"YYY"` (3 shares, 10.001 → 20.002) the two differ: the reported gain is
30.01 while the table's `GainLoss` column sums to 30. -/
theorem C10_total_gain_from_totals :
    (∀ (t : List Snapshot), t ≠ [] → ∀ v g p : ℚ,
       get_portfolio_stats t = StatsOutput.line v g p →
       g = (t.map (fun r => r.CurrentValue)).sum -
           (t.map (fun r => r.PurchasePrice * r.Shares)).sum)
    ∧ get_portfolio_stats (get_portfolio_table ppGain [hGain]) =
        StatsOutput.line (6001/100) (3001/100) (3001/30)
    ∧ ((get_portfolio_table ppGain [hGain]).map (fun r => r.GainLoss)).sum = 30
    ∧ ((3001 : ℚ)/100) ≠ 30 := by
  have e1 : round2 ((10001:ℚ)/1000) = 10 := by
    rw [round2_eq ((10001:ℚ)/1000) 1000 (by norm_num) (by norm_num)]
    norm_num
  have e2 : round2 ((10001:ℚ)/500) = 20 := by
    rw [round2_eq ((10001:ℚ)/500) 2000 (by norm_num) (by norm_num)]
    norm_num
  have e3 : round2 ((3:ℚ) * (10001/500)) = 6001/100 := by
    rw [round2_eq ((3:ℚ) * (10001/500)) 6001 (by norm_num) (by norm_num)]
    norm_num
  have e4 : round2 (((10001:ℚ)/500 - 10001/1000) * 3) = 30 := by
    rw [round2_eq (((10001:ℚ)/500 - 10001/1000) * 3) 3000 (by norm_num) (by norm_num)]
    norm_num
  have htab : get_portfolio_table ppGain [hGain] =
      [{ Ticker := "YYY", Shares := 3, PurchaseDate := "2023-01-03"
         PurchasePrice := 10, CurrentPrice := 20
         CurrentValue := 6001/100, GainLoss := 30 }] := by
    simp [get_portfolio_table, tableStep, ppGain, hGain, e1, e2, e3, e4]
  refine ⟨?_, ?_, ?_, by norm_num⟩
  · intro t ht v g p hline
    cases t with
    | nil => exact absurd rfl ht
    | cons row rows =>
      simp [get_portfolio_stats] at hline
      exact hline.2.1.symm
  · rw [htab]
    simp [get_portfolio_stats]
    norm_num
  · rw [htab]
    simp

/-- C10 witness: the universal part applied to a concrete one-row
table whose summary triple is `(12, 2, 20)`. -/
theorem C10_total_gain_from_totals_witness :
    (2 : ℚ) = ([snapW].map (fun r => r.CurrentValue)).sum -
      ([snapW].map (fun r => r.PurchasePrice * r.Shares)).sum :=
  C10_total_gain_from_totals.1 [snapW] (by simp) 12 2 20
    (by norm_num [get_portfolio_stats, snapW])

/-! ### Claims about the time series (`portfolio_value_over_time`) -/

/-- C3 (amended): for two holdings whose fetches succeed with date-sorted
histories, provided the first holding's ticker is not the literal column
name `"Close"`, the result's date axis is the sorted union of the two
holdings' dates, each holding's column carries on every axis date its
shares times its most recent price at or before that date (zero before
its series begins), and `Total` is on every date the sum of the two
filled columns. -/
theorem C3_outer_join_two_holdings (pp : PriceProvider) (h1 h2 : Holding)
    (s1 s2 : Series)
    (hf1 : pp.hist h1.Ticker h1.PurchaseDate = Except.ok s1)
    (hf2 : pp.hist h2.Ticker h2.PurchaseDate = Except.ok s2)
    (hs1 : s1.Pairwise (fun p q => p.1 < q.1))
    (hs2 : s2.Pairwise (fun p q => p.1 < q.1))
    (hT : h1.Ticker ≠ "Close") :
    portfolio_value_over_time pp [h1, h2] =
      some { dates := dateUnion (s1.map Prod.fst) (s2.map Prod.fst)
             cols := [(h1.Ticker, (dateUnion (s1.map Prod.fst) (s2.map Prod.fst)).map
                         (fun d => ((lastAt s1 d).map (fun v => v * h1.Shares)).getD 0)),
                      ("Close", (dateUnion (s1.map Prod.fst) (s2.map Prod.fst)).map
                         (fun d => ((lastAt s2 d).map (fun v => v * h2.Shares)).getD 0))]
             total := (dateUnion (s1.map Prod.fst) (s2.map Prod.fst)).map
                         (fun d => ((lastAt s1 d).map (fun v => v * h1.Shares)).getD 0
                           + ((lastAt s2 d).map (fun v => v * h2.Shares)).getD 0) }
    ∧ (dateUnion (s1.map Prod.fst) (s2.map Prod.fst)).toFinset
        = (s1.map Prod.fst).toFinset ∪ (s2.map Prod.fst).toFinset
    ∧ (dateUnion (s1.map Prod.fst) (s2.map Prod.fst)).Pairwise (· < ·) := by
  have hUpair : (dateUnion (s1.map Prod.fst) (s2.map Prod.fst)).Pairwise (· < ·) :=
    pairwise_dateUnion _ _ (List.pairwise_map.mpr hs1)
  have hv1p : (s1.map (fun p => (p.1, p.2 * h1.Shares))).Pairwise (fun p q => p.1 < q.1) :=
    pairwise_scale s1 h1.Shares hs1
  have hv2p : (s2.map (fun p => (p.1, p.2 * h2.Shares))).Pairwise (fun p q => p.1 < q.1) :=
    pairwise_scale s2 h2.Shares hs2
  have hsub1 : ∀ p ∈ s1.map (fun p => (p.1, p.2 * h1.Shares)),
      p.1 ∈ dateUnion (s1.map Prod.fst) (s2.map Prod.fst) := by
    intro p hp
    rcases List.mem_map.mp hp with ⟨q, hq, rfl⟩
    rw [mem_dateUnion]
    exact Or.inl (List.mem_map.mpr ⟨q, hq, rfl⟩)
  have hsub2 : ∀ p ∈ s2.map (fun p => (p.1, p.2 * h2.Shares)),
      p.1 ∈ dateUnion (s1.map Prod.fst) (s2.map Prod.fst) := by
    intro p hp
    rcases List.mem_map.mp hp with ⟨q, hq, rfl⟩
    rw [mem_dateUnion]
    exact Or.inr (List.mem_map.mpr ⟨q, hq, rfl⟩)
  have h1v : pvotStep pp none h1 =
      some { dates := (s1.map (fun p => (p.1, p.2 * h1.Shares))).map Prod.fst
             cols := [(h1.Ticker, s1.map (fun p => (p.1, p.2 * h1.Shares)))] } := by
    simp [pvotStep, hf1]
  have hbeq : (h1.Ticker == "Close") = false := beq_eq_false_iff_ne.mpr hT
  have h2v : pvotStep pp
      (some { dates := (s1.map (fun p => (p.1, p.2 * h1.Shares))).map Prod.fst
              cols := [(h1.Ticker, s1.map (fun p => (p.1, p.2 * h1.Shares)))] }) h2 =
      some { dates := dateUnion (s1.map Prod.fst) (s2.map Prod.fst)
             cols := [(h1.Ticker, s1.map (fun p => (p.1, p.2 * h1.Shares))),
                      ("Close", s2.map (fun p => (p.1, p.2 * h2.Shares)))] } := by
    simp [pvotStep, hf2, hbeq, map_fst_scale, map_fst_scale_comp]
  have hpv : portfolio_value_over_time pp [h1, h2] =
      some (finalize { dates := dateUnion (s1.map Prod.fst) (s2.map Prod.fst)
                       cols := [(h1.Ticker, s1.map (fun p => (p.1, p.2 * h1.Shares))),
                                ("Close", s2.map (fun p => (p.1, p.2 * h2.Shares)))] }) := by
    show (match [h1, h2].foldl (pvotStep pp) none with
          | none => none
          | some combined => some (finalize combined)) = _
    rw [show [h1, h2].foldl (pvotStep pp) none =
          pvotStep pp (pvotStep pp none h1) h2 from rfl, h1v, h2v]
  refine ⟨?_, ?_, hUpair⟩
  · rw [hpv, finalize_two _ _ _ _ _ hUpair hv1p hv2p hsub1 hsub2]
    simp only [lastAt_map_scale]
  · ext x
    simp [List.mem_toFinset, mem_dateUnion]
/-- C1: refuted by the code — with three holdings whose fetches all
succeed, the joined series after the first is always named `"Close"`, so
the third `join` raises `columns overlap` and the loop's `except` drops
the third holding: its date `3` never reaches the axis and `Total` omits
its value, contradicting "every holding contributes to the aggregate"
(the spec's outer-join-over-all-holdings intent; the code's
`to_frame(ticker)` on the first column shows the slip). -/
theorem C1_third_holding_dropped :
    ppThree.hist hCCC.Ticker hCCC.PurchaseDate = Except.ok [(3, 30)]
    ∧ portfolio_value_over_time ppThree [hAAA, hBBB, hCCC] =
        some { dates := [1, 2]
               cols := [("AAA", [10, 10]), ("Close", [0, 20])]
               total := [10, 30] }
    ∧ ([1, 2] : List Nat).contains 3 = false :=
  ⟨rfl, by with_unfolding_all decide, rfl⟩

/-- C3 counterexample: both fetches succeed with full histories, but the
first holding's ticker is the literal `"Close"`, so the second join hits
a duplicate column name, raises, and the second holding is dropped — the
returned axis `[1]` misses the second holding's date `2`, so it is not
the union the claim asserts. -/
theorem C3_counterexample :
    ppClose.hist hCloseTicker.Ticker hCloseTicker.PurchaseDate = Except.ok [(1, 10)]
    ∧ ppClose.hist hAAPL.Ticker hAAPL.PurchaseDate = Except.ok [(1, 5), (2, 7)]
    ∧ portfolio_value_over_time ppClose [hCloseTicker, hAAPL] =
        some { dates := [1], cols := [("Close", [10])], total := [10] }
    ∧ ([1] : List Nat).contains 2 = false :=
  ⟨rfl, rfl, by with_unfolding_all decide, rfl⟩

/-- C3 witness: the amended statement at two shares of `"AAA"` (dates 1
and 3) and four shares of `"BBB"` (date 2). -/
theorem C3_outer_join_two_holdings_witness :
    portfolio_value_over_time ppJoin [hJoin1, hJoin2] =
      some { dates := dateUnion (([(1, 10), (3, 30)] : Series).map Prod.fst)
                        (([(2, 5)] : Series).map Prod.fst)
             cols := [(hJoin1.Ticker,
                       (dateUnion (([(1, 10), (3, 30)] : Series).map Prod.fst)
                          (([(2, 5)] : Series).map Prod.fst)).map
                         (fun d => ((lastAt [(1, 10), (3, 30)] d).map
                            (fun v => v * hJoin1.Shares)).getD 0)),
                      ("Close",
                       (dateUnion (([(1, 10), (3, 30)] : Series).map Prod.fst)
                          (([(2, 5)] : Series).map Prod.fst)).map
                         (fun d => ((lastAt [(2, 5)] d).map
                            (fun v => v * hJoin2.Shares)).getD 0))]
             total := (dateUnion (([(1, 10), (3, 30)] : Series).map Prod.fst)
                          (([(2, 5)] : Series).map Prod.fst)).map
                         (fun d => ((lastAt [(1, 10), (3, 30)] d).map
                            (fun v => v * hJoin1.Shares)).getD 0
                           + ((lastAt [(2, 5)] d).map
                            (fun v => v * hJoin2.Shares)).getD 0) }
    ∧ (dateUnion (([(1, 10), (3, 30)] : Series).map Prod.fst)
        (([(2, 5)] : Series).map Prod.fst)).toFinset
        = (([(1, 10), (3, 30)] : Series).map Prod.fst).toFinset
          ∪ (([(2, 5)] : Series).map Prod.fst).toFinset
    ∧ (dateUnion (([(1, 10), (3, 30)] : Series).map Prod.fst)
        (([(2, 5)] : Series).map Prod.fst)).Pairwise (· < ·) :=
  C3_outer_join_two_holdings ppJoin hJoin1 hJoin2 [(1, 10), (3, 30)] [(2, 5)]
    rfl rfl (by decide) (by decide) (by decide)

end PortfolioTracker
